import Mathlib

/-!
# Verification of the boundary-value cycler of Hdf5JavaLib

Shallow embedding of the deterministic boundary-value cycling generator
`getCycledValue<T>` from `src/hdf5/compoundexamples/writer.cpp`, together
with the `scaledUintVal` field computation in `main` (writer.cpp) and the
57-bit precision registered for that member in
`src/hdf5/compoundexamples/common.cpp`.

Machine integers are modelled as mathematical integers (`Int`); a C++
fixed-width integral type is modelled by its bit width and signedness,
from which `std::numeric_limits` min/max are derived.  All divisions in
the embedded code have nonnegative dividends and positive literal
divisors, where C++ truncating division coincides with Lean's Euclidean
division, and no arithmetic operation in the source can overflow its
type, so exact `Int` arithmetic is a faithful model.  The `uint64`
left shift in `scaledUintVal` is modelled with an explicit `% 2 ^ 64`.
-/

/-- A C++ fixed-width integral type descriptor: bit width and signedness. -/
structure CIntType where
  bits : Nat
  signed : Bool

/-- `std::numeric_limits<T>::min()` of a fixed-width integral type:
`-2^(bits-1)` when signed, `0` when unsigned. -/
def CIntType.min (T : CIntType) : Int :=
  if T.signed then -(2 ^ (T.bits - 1)) else 0

/-- `std::numeric_limits<T>::max()` of a fixed-width integral type:
`2^(bits-1) - 1` when signed, `2^bits - 1` when unsigned. -/
def CIntType.max (T : CIntType) : Int :=
  if T.signed then 2 ^ (T.bits - 1) - 1 else 2 ^ T.bits - 1

/-- `int8_t` -/
def int8 : CIntType := ⟨8, true⟩

/-- `uint8_t` -/
def uint8 : CIntType := ⟨8, false⟩

/-- `int16_t` -/
def int16 : CIntType := ⟨16, true⟩

/-- `uint16_t` -/
def uint16 : CIntType := ⟨16, false⟩

/-- `int32_t` -/
def int32 : CIntType := ⟨32, true⟩

/-- `uint32_t` -/
def uint32 : CIntType := ⟨32, false⟩

/-- `int64_t` -/
def int64 : CIntType := ⟨64, true⟩

/-- `uint64_t` -/
def uint64 : CIntType := ⟨64, false⟩

/-- The 5-step boundary-value cycler `getCycledValue<T>(int index)` from
writer.cpp.  `cycleIndex = index % cycleLength` with `cycleLength = 5` is
the match scrutinee; the locals `half_max = max_val / 2` and
`result = -half_max - (max_val % 2 != 0 ? 1 : 0)` of the signed arm of
`case 1` are inlined, and the statement `if (result > 0) result = min_val;`
becomes the middle conditional of that arm.  `case 4` and `default` share
one arm, exactly as in the source `switch`. -/
def getCycledValue (T : CIntType) (index : Nat) : Int :=
  match index % 5 with
  | 0 => T.min
  | 1 =>
      if T.signed then
        if T.max ≤ 0 then T.min
        else if 0 < -(T.max / 2) - (if T.max % 2 ≠ 0 then (1 : Int) else 0)
          then T.min
          else -(T.max / 2) - (if T.max % 2 ≠ 0 then (1 : Int) else 0)
      else T.max / 4
  | 2 => if T.signed then 0 else T.max / 2
  | 3 => if T.signed then T.max / 2 else T.max / 4 * 3
  | _ => T.max

/-- The cycler reads its index only through `index % 5`. -/
theorem getCycledValue_congr_mod (T : CIntType) {i j : Nat} (h : i % 5 = j % 5) :
    getCycledValue T i = getCycledValue T j := by
  unfold getCycledValue
  rw [h]

/-- Arm `case 0` of the switch: the minimum value. -/
theorem getCycledValue_case0 (T : CIntType) (i : Nat) (h : i % 5 = 0) :
    getCycledValue T i = T.min := by
  unfold getCycledValue
  rw [h]

/-- Arm `case 1` of the switch, with the signed branch's inlined locals. -/
theorem getCycledValue_case1 (T : CIntType) (i : Nat) (h : i % 5 = 1) :
    getCycledValue T i =
      if T.signed then
        if T.max ≤ 0 then T.min
        else if 0 < -(T.max / 2) - (if T.max % 2 ≠ 0 then (1 : Int) else 0)
          then T.min
          else -(T.max / 2) - (if T.max % 2 ≠ 0 then (1 : Int) else 0)
      else T.max / 4 := by
  unfold getCycledValue
  rw [h]

/-- Arm `case 2` of the switch. -/
theorem getCycledValue_case2 (T : CIntType) (i : Nat) (h : i % 5 = 2) :
    getCycledValue T i = if T.signed then 0 else T.max / 2 := by
  unfold getCycledValue
  rw [h]

/-- Arm `case 3` of the switch. -/
theorem getCycledValue_case3 (T : CIntType) (i : Nat) (h : i % 5 = 3) :
    getCycledValue T i = if T.signed then T.max / 2 else T.max / 4 * 3 := by
  unfold getCycledValue
  rw [h]

/-- Arm `case 4` (shared with `default`) of the switch: the maximum value. -/
theorem getCycledValue_case4 (T : CIntType) (i : Nat) (h : i % 5 = 4) :
    getCycledValue T i = T.max := by
  unfold getCycledValue
  rw [h]

/-- Claim C2: for every integral type `T` and every non-negative index `i`,
`getCycledValue T i = getCycledValue T (i + 5)`: the sequence cycles with
period 5. -/
theorem getCycledValue_period_five (T : CIntType) (i : Nat) :
    getCycledValue T i = getCycledValue T (i + 5) :=
  getCycledValue_congr_mod T (by omega)

/-- Claim C3: concrete values of the cycler on `int8` (range [-128,127]) and
`uint8` (range [0,255]) at indices 0..4: `-128, -64, 0, 63, 127` and
`0, 63, 127, 189, 255` respectively. -/
theorem getCycledValue_int8_uint8_table :
    getCycledValue int8 0 = -128 ∧ getCycledValue int8 1 = -64 ∧
    getCycledValue int8 2 = 0 ∧ getCycledValue int8 3 = 63 ∧
    getCycledValue int8 4 = 127 ∧
    getCycledValue uint8 0 = 0 ∧ getCycledValue uint8 1 = 63 ∧
    getCycledValue uint8 2 = 127 ∧ getCycledValue uint8 3 = 189 ∧
    getCycledValue uint8 4 = 255 := by
  decide

/-- Claim C4: for every integral type `T` and every `k ≥ 0`, the cycler
returns `T.min` at index `5k` and `T.max` at index `5k + 4`. -/
theorem getCycledValue_endpoints (T : CIntType) (k : Nat) :
    getCycledValue T (5 * k) = T.min ∧ getCycledValue T (5 * k + 4) = T.max :=
  ⟨getCycledValue_case0 T _ (by omega), getCycledValue_case4 T _ (by omega)⟩

/-- Claim C1: for every fixed-width integral type (any positive bit width,
signed or unsigned) and every non-negative index, the cycled value lies in
`[T.min, T.max]` inclusive. -/
theorem getCycledValue_mem_range (T : CIntType) (hb : 1 ≤ T.bits) (i : Nat) :
    T.min ≤ getCycledValue T i ∧ getCycledValue T i ≤ T.max := by
  have hS : (0 : Int) < 2 ^ (T.bits - 1) := pow_pos (by norm_num) _
  have hU : (0 : Int) < 2 ^ T.bits := pow_pos (by norm_num) _
  have h5 : i % 5 = 0 ∨ i % 5 = 1 ∨ i % 5 = 2 ∨ i % 5 = 3 ∨ i % 5 = 4 := by
    omega
  rcases h5 with h | h | h | h | h
  · rw [getCycledValue_case0 T i h]
    unfold CIntType.min CIntType.max
    cases hs : T.signed <;> simp only [Bool.false_eq_true, if_true, if_false] <;> omega
  · rw [getCycledValue_case1 T i h]
    unfold CIntType.min CIntType.max
    cases hs : T.signed <;> simp only [Bool.false_eq_true, if_true, if_false] <;>
      (try split_ifs) <;> omega
  · rw [getCycledValue_case2 T i h]
    unfold CIntType.min CIntType.max
    cases hs : T.signed <;> simp only [Bool.false_eq_true, if_true, if_false] <;> omega
  · rw [getCycledValue_case3 T i h]
    unfold CIntType.min CIntType.max
    cases hs : T.signed <;> simp only [Bool.false_eq_true, if_true, if_false] <;> omega
  · rw [getCycledValue_case4 T i h]
    unfold CIntType.min CIntType.max
    cases hs : T.signed <;> simp only [Bool.false_eq_true, if_true, if_false] <;> omega

/-- Witness for C1 at the concrete type `int8` and index 7. -/
theorem getCycledValue_mem_range_witness :
    1 ≤ int8.bits ∧
    (int8.min ≤ getCycledValue int8 7 ∧ getCycledValue int8 7 ≤ int8.max) :=
  ⟨by decide, getCycledValue_mem_range int8 (by decide) 7⟩

/-- Claim C5: at cycle position 2 the cycler returns `0` for every signed
type and `T.max / 2` (integer division) for every unsigned type, for every
`k ≥ 0`. -/
theorem getCycledValue_position_two (T : CIntType) (k : Nat) :
    (T.signed = true → getCycledValue T (5 * k + 2) = 0) ∧
    (T.signed = false → getCycledValue T (5 * k + 2) = T.max / 2) := by
  rw [getCycledValue_case2 T _ (by omega)]
  constructor <;> intro hs <;> simp [hs]

/-- Witness for C5 at `int8` (signed) and `uint8` (unsigned), `k = 1`. -/
theorem getCycledValue_position_two_witness :
    int8.signed = true ∧ getCycledValue int8 (5 * 1 + 2) = 0 ∧
    uint8.signed = false ∧ getCycledValue uint8 (5 * 1 + 2) = uint8.max / 2 :=
  ⟨rfl, (getCycledValue_position_two int8 1).1 rfl, rfl,
    (getCycledValue_position_two uint8 1).2 rfl⟩

/-- Claim C6: at cycle position 1, a signed type yields exactly
`⌊-T.max / 2⌋` (Euclidean division by 2 of `-T.max`, i.e. `-T.max/2` rounded
toward `T.min`), a value always in `[T.min, 0]`; an unsigned type yields
`T.max / 4`.  Bit width at least 2 covers every real fixed-width type. -/
theorem getCycledValue_position_one (T : CIntType) (hb : 2 ≤ T.bits) (k : Nat) :
    (T.signed = true →
      getCycledValue T (5 * k + 1) = -T.max / 2 ∧
      T.min ≤ getCycledValue T (5 * k + 1) ∧ getCycledValue T (5 * k + 1) ≤ 0) ∧
    (T.signed = false → getCycledValue T (5 * k + 1) = T.max / 4) := by
  rw [getCycledValue_case1 T _ (by omega)]
  have e1 : (2 : Int) ^ (T.bits - 1) = 2 * 2 ^ (T.bits - 2) := by
    rw [show T.bits - 1 = (T.bits - 2) + 1 from by omega, pow_succ]
    ring
  have hx : (0 : Int) < 2 ^ (T.bits - 2) := pow_pos (by norm_num) _
  constructor <;> intro hs <;>
    simp only [hs, Bool.false_eq_true, if_true, if_false, CIntType.min, CIntType.max] <;>
    rw [e1] <;> split_ifs <;> omega

/-- Witness for C6 at `int8` (signed part) and `uint8` (unsigned part),
`k = 0`. -/
theorem getCycledValue_position_one_witness :
    2 ≤ int8.bits ∧ int8.signed = true ∧
    (getCycledValue int8 (5 * 0 + 1) = -int8.max / 2 ∧
      int8.min ≤ getCycledValue int8 (5 * 0 + 1) ∧
      getCycledValue int8 (5 * 0 + 1) ≤ 0) ∧
    2 ≤ uint8.bits ∧ uint8.signed = false ∧
    getCycledValue uint8 (5 * 0 + 1) = uint8.max / 4 :=
  ⟨by decide, rfl, (getCycledValue_position_one int8 (by decide) 0).1 rfl,
    by decide, rfl, (getCycledValue_position_one uint8 (by decide) 0).2 rfl⟩

/-- Relational (big-step) semantics of the body of `getCycledValue`: one
constructor per executed path of the `switch`, with the guards of each
branch recorded as premises.  The final constructor corresponds to
`case 4:` falling through to `default:`, which share one arm in the
source. -/
inductive CycleEval (T : CIntType) (index : Nat) : Int → Prop where
  | caseMin : index % 5 = 0 → CycleEval T index T.min
  | caseSignedNoPos : index % 5 = 1 → T.signed = true → T.max ≤ 0 →
      CycleEval T index T.min
  | caseSignedHalfNegWrap : index % 5 = 1 → T.signed = true → 0 < T.max →
      0 < -(T.max / 2) - (if T.max % 2 ≠ 0 then (1 : Int) else 0) →
      CycleEval T index T.min
  | caseSignedHalfNeg : index % 5 = 1 → T.signed = true → 0 < T.max →
      ¬ 0 < -(T.max / 2) - (if T.max % 2 ≠ 0 then (1 : Int) else 0) →
      CycleEval T index (-(T.max / 2) - (if T.max % 2 ≠ 0 then (1 : Int) else 0))
  | caseUnsignedQuarter : index % 5 = 1 → T.signed = false →
      CycleEval T index (T.max / 4)
  | caseSignedZero : index % 5 = 2 → T.signed = true → CycleEval T index 0
  | caseUnsignedHalf : index % 5 = 2 → T.signed = false →
      CycleEval T index (T.max / 2)
  | caseSignedHalf : index % 5 = 3 → T.signed = true →
      CycleEval T index (T.max / 2)
  | caseUnsignedThreeQuarter : index % 5 = 3 → T.signed = false →
      CycleEval T index (T.max / 4 * 3)
  | caseMax : 4 ≤ index % 5 → CycleEval T index T.max

/-- Claim C7: the cycler is deterministic — any two evaluations of the body
on identical `(index, type)` inputs produce equal results.  Together with
the embedding of the body as a state-free relation (no constructor reads or
writes anything but the inputs), this captures purity: two calls with the
same arguments always agree. -/
theorem cycleEval_deterministic (T : CIntType) (i : Nat) (v₁ v₂ : Int)
    (h₁ : CycleEval T i v₁) (h₂ : CycleEval T i v₂) : v₁ = v₂ := by
  cases h₁ <;> cases h₂ <;> first | rfl | omega | simp_all

/-- Witness for C7: both evaluations at `(int8, 1)` yield `-64`, the value
of `getCycledValue int8 1`. -/
theorem cycleEval_deterministic_witness : getCycledValue int8 1 = -64 :=
  cycleEval_deterministic int8 1 (getCycledValue int8 1) (-64)
    (CycleEval.caseSignedHalfNeg rfl rfl (by decide) (by decide))
    (CycleEval.caseSignedHalfNeg rfl rfl (by decide) (by decide))

/-- Claim C8: the cycler is total — for every integral type and every
non-negative index, some arm of the `switch` applies (the evaluation
relation relates the input to the value the function returns), so the call
returns a value without hitting any error or unreachable branch. -/
theorem cycleEval_total (T : CIntType) (i : Nat) :
    CycleEval T i (getCycledValue T i) := by
  have h5 : i % 5 = 0 ∨ i % 5 = 1 ∨ i % 5 = 2 ∨ i % 5 = 3 ∨ i % 5 = 4 := by
    omega
  rcases h5 with h | h | h | h | h
  · rw [getCycledValue_case0 T i h]
    exact CycleEval.caseMin h
  · rw [getCycledValue_case1 T i h]
    cases hs : T.signed
    · simp only [Bool.false_eq_true, if_false]
      exact CycleEval.caseUnsignedQuarter h hs
    · simp only [if_true]
      by_cases h1 : T.max ≤ 0
      · rw [if_pos h1]
        exact CycleEval.caseSignedNoPos h hs h1
      · rw [if_neg h1]
        by_cases h2 : 0 < -(T.max / 2) - (if T.max % 2 ≠ 0 then (1 : Int) else 0)
        · rw [if_pos h2]
          exact CycleEval.caseSignedHalfNegWrap h hs (by omega) h2
        · rw [if_neg h2]
          exact CycleEval.caseSignedHalfNeg h hs (by omega) h2
  · rw [getCycledValue_case2 T i h]
    cases hs : T.signed
    · simp only [Bool.false_eq_true, if_false]
      exact CycleEval.caseUnsignedHalf h hs
    · simp only [if_true]
      exact CycleEval.caseSignedZero h hs
  · rw [getCycledValue_case3 T i h]
    cases hs : T.signed
    · simp only [Bool.false_eq_true, if_false]
      exact CycleEval.caseUnsignedThreeQuarter h hs
    · simp only [if_true]
      exact CycleEval.caseSignedHalf h hs
  · rw [getCycledValue_case4 T i h]
    exact CycleEval.caseMax (by omega)

/-- Claim C9: for each of the eight fixed-width integer types instantiated
by `main` in writer.cpp, the five values emitted within one cycle are
strictly increasing in the cycle position, hence pairwise distinct. -/
theorem getCycledValue_strict_chain (k : Nat) :
    (getCycledValue int8 (5 * k) < getCycledValue int8 (5 * k + 1) ∧
      getCycledValue int8 (5 * k + 1) < getCycledValue int8 (5 * k + 2) ∧
      getCycledValue int8 (5 * k + 2) < getCycledValue int8 (5 * k + 3) ∧
      getCycledValue int8 (5 * k + 3) < getCycledValue int8 (5 * k + 4)) ∧
    (getCycledValue uint8 (5 * k) < getCycledValue uint8 (5 * k + 1) ∧
      getCycledValue uint8 (5 * k + 1) < getCycledValue uint8 (5 * k + 2) ∧
      getCycledValue uint8 (5 * k + 2) < getCycledValue uint8 (5 * k + 3) ∧
      getCycledValue uint8 (5 * k + 3) < getCycledValue uint8 (5 * k + 4)) ∧
    (getCycledValue int16 (5 * k) < getCycledValue int16 (5 * k + 1) ∧
      getCycledValue int16 (5 * k + 1) < getCycledValue int16 (5 * k + 2) ∧
      getCycledValue int16 (5 * k + 2) < getCycledValue int16 (5 * k + 3) ∧
      getCycledValue int16 (5 * k + 3) < getCycledValue int16 (5 * k + 4)) ∧
    (getCycledValue uint16 (5 * k) < getCycledValue uint16 (5 * k + 1) ∧
      getCycledValue uint16 (5 * k + 1) < getCycledValue uint16 (5 * k + 2) ∧
      getCycledValue uint16 (5 * k + 2) < getCycledValue uint16 (5 * k + 3) ∧
      getCycledValue uint16 (5 * k + 3) < getCycledValue uint16 (5 * k + 4)) ∧
    (getCycledValue int32 (5 * k) < getCycledValue int32 (5 * k + 1) ∧
      getCycledValue int32 (5 * k + 1) < getCycledValue int32 (5 * k + 2) ∧
      getCycledValue int32 (5 * k + 2) < getCycledValue int32 (5 * k + 3) ∧
      getCycledValue int32 (5 * k + 3) < getCycledValue int32 (5 * k + 4)) ∧
    (getCycledValue uint32 (5 * k) < getCycledValue uint32 (5 * k + 1) ∧
      getCycledValue uint32 (5 * k + 1) < getCycledValue uint32 (5 * k + 2) ∧
      getCycledValue uint32 (5 * k + 2) < getCycledValue uint32 (5 * k + 3) ∧
      getCycledValue uint32 (5 * k + 3) < getCycledValue uint32 (5 * k + 4)) ∧
    (getCycledValue int64 (5 * k) < getCycledValue int64 (5 * k + 1) ∧
      getCycledValue int64 (5 * k + 1) < getCycledValue int64 (5 * k + 2) ∧
      getCycledValue int64 (5 * k + 2) < getCycledValue int64 (5 * k + 3) ∧
      getCycledValue int64 (5 * k + 3) < getCycledValue int64 (5 * k + 4)) ∧
    (getCycledValue uint64 (5 * k) < getCycledValue uint64 (5 * k + 1) ∧
      getCycledValue uint64 (5 * k + 1) < getCycledValue uint64 (5 * k + 2) ∧
      getCycledValue uint64 (5 * k + 2) < getCycledValue uint64 (5 * k + 3) ∧
      getCycledValue uint64 (5 * k + 3) < getCycledValue uint64 (5 * k + 4)) := by
  have h0 : ∀ T : CIntType, getCycledValue T (5 * k) = getCycledValue T 0 :=
    fun T => getCycledValue_congr_mod T (by omega)
  have h1 : ∀ T : CIntType, getCycledValue T (5 * k + 1) = getCycledValue T 1 :=
    fun T => getCycledValue_congr_mod T (by omega)
  have h2 : ∀ T : CIntType, getCycledValue T (5 * k + 2) = getCycledValue T 2 :=
    fun T => getCycledValue_congr_mod T (by omega)
  have h3 : ∀ T : CIntType, getCycledValue T (5 * k + 3) = getCycledValue T 3 :=
    fun T => getCycledValue_congr_mod T (by omega)
  have h4 : ∀ T : CIntType, getCycledValue T (5 * k + 4) = getCycledValue T 4 :=
    fun T => getCycledValue_congr_mod T (by omega)
  simp only [h0, h1, h2, h3, h4]
  decide

/-- `NUM_RECORDS` from common.h: the number of records the writer
prepares. -/
def NUM_RECORDS : Nat := 1000

/-- The mask `0x01FFFFFFFFFFFFFF` applied to `scaledUintVal` in writer.cpp
(the low 57 bits). -/
def scaledUintMask : Nat := 0x01FFFFFFFFFFFFFF

/-- The precision, in bits, that `createCompoundType` in common.cpp
registers for the member `scaledUintVal` via `setPrecision(57)`. -/
def scaledUintPrecision : Nat := 57

/-- The `scaledUintVal` computation of `main` in writer.cpp:
`uint64_t value = ((static_cast<uint64_t>(i) + 1ULL) << 7) | ((i % 4) * 32);`
then `records[i].scaledUintVal = value & 0x01FFFFFFFFFFFFFFULL;`.
The `uint64_t` left shift wraps modulo `2 ^ 64`; the other operands are at
most `96`, so no other operation can wrap. -/
def scaledUintVal (i : Nat) : Nat :=
  ((((i + 1) <<< 7) % 2 ^ 64) ||| ((i % 4) * 32)) &&& scaledUintMask

/-- Claim C10: for every record index `i` prepared by the writer
(`i < NUM_RECORDS`), `scaledUintVal` equals
`((i+1) << 7 | (i % 4) * 32) & 0x01FFFFFFFFFFFFFF` (no wrap occurs at these
indices) and is strictly below `2 ^ 57`, so it fits the 57-bit precision
registered for that member of the compound type. -/
theorem scaledUintVal_masked_fits (i : Nat) (h : i < NUM_RECORDS) :
    scaledUintVal i = (((i + 1) <<< 7) ||| ((i % 4) * 32)) &&& scaledUintMask ∧
    scaledUintVal i < 2 ^ scaledUintPrecision := by
  constructor
  · unfold scaledUintVal
    have h64 : (2 : Nat) ^ 64 = 18446744073709551616 := by norm_num
    have hlt : (i + 1) <<< 7 < 2 ^ 64 := by
      rw [Nat.shiftLeft_eq, h64]
      have : i < 1000 := h
      omega
    rw [Nat.mod_eq_of_lt hlt]
  · calc scaledUintVal i ≤ scaledUintMask := Nat.and_le_right
      _ < 2 ^ scaledUintPrecision := by norm_num [scaledUintMask, scaledUintPrecision]

/-- Witness for C10 at record index 0: the masked value is `128 < 2 ^ 57`. -/
theorem scaledUintVal_masked_fits_witness :
    scaledUintVal 0 = (((0 + 1) <<< 7) ||| ((0 % 4) * 32)) &&& scaledUintMask ∧
    scaledUintVal 0 < 2 ^ scaledUintPrecision :=
  scaledUintVal_masked_fits 0 (by decide)
